import Mathlib

/-!
Verification development for the course/video learning application
(`videoarea`).  The definitions below are a shallow embedding of the
three pieces of domain logic identified in the specification:

* the progress store (`setCompletion`): the `action` handler of
  `app/routes/courses.$courseId.videos.$videoId.tsx`, lines 74-113,
  together with the schema constraints of `prisma/schema.prisma`
  (`UserVideoProgress`: primary key `id`, unique `(userId, videoId)`,
  foreign keys to `User` and `Video`) and
  `supabase/migrations/initial_schema.sql` (`user_video_progress`);

* the progress aggregator: the Dashboard `loader`, lines 292-322 of the
  second route module (overall and per-course completion percentages);

* the video reference resolver (`getVideoId`), lines 121-131 of the
  video route component (JavaScript `String.match` against the YouTube
  and Vimeo regular expressions, leftmost-match semantics).

Machine reals of the source (JavaScript numbers) are modelled by `ℚ`;
all the percentage computations of the source are exact divisions of
small integer counts, so the embedding is faithful on every input the
claims mention.  Timestamps are modelled by an abstract `Nat` clock
value passed to each store operation.
-/

/-! ## Progress store: data model -/

/-- A row of the `UserVideoProgress` table (`prisma/schema.prisma`,
lines 106-118): one completion flag per (user, video) pair, with
primary key `id`, a `completed` flag and an `updatedAt` timestamp. -/
structure ProgressRecord where
  id : Nat
  userId : String
  videoId : String
  completed : Bool
  updatedAt : Nat
deriving DecidableEq

/-- The storage state relevant to progress tracking: the set of existing
user ids, the set of existing video ids (referential-integrity targets),
the `UserVideoProgress` rows, and the primary-key allocator. -/
structure DB where
  users : List String
  videos : List String
  progress : List ProgressRecord
  nextId : Nat
deriving DecidableEq

/-- Storage-boundary error: a referenced entity does not exist
(the foreign-key violation surfaced as `NotFound`, spec section 7). -/
inductive DBError where
  | NotFound
deriving DecidableEq

/-- The `userId_videoId` composite-key predicate used by
`prisma.userVideoProgress.findUnique` in the action (lines 86-93). -/
def pmatch (u v : String) (p : ProgressRecord) : Bool :=
  p.userId == u && p.videoId == v

/-- Lookup `prisma.userVideoProgress.findUnique({ where: { userId_videoId } })`. -/
def findUniqueProgress (db : DB) (u v : String) : Option ProgressRecord :=
  db.progress.find? (pmatch u v)

/-- Insert `prisma.userVideoProgress.create` (action lines 101-107).  The
referential constraints of the schema (`FOREIGN KEY ("userId")`,
`FOREIGN KEY ("videoId")` in `initial_schema.sql`, lines 152-161) make
the insert fail with `NotFound` when the referenced user or video does
not exist; on failure the store is unchanged (no new state is
produced).  `updatedAt` gets the current time (`@default(now())`). -/
def createProgress (db : DB) (u v : String) (b : Bool) (now : Nat) :
    Except DBError DB :=
  if u ∈ db.users ∧ v ∈ db.videos then
    .ok { db with
          progress := db.progress ++ [⟨db.nextId, u, v, b, now⟩],
          nextId := db.nextId + 1 }
  else
    .error .NotFound

/-- Update `prisma.userVideoProgress.update({ where: { id }, data: { completed } })`
(action lines 96-99); `updatedAt` is refreshed by `@updatedAt`. -/
def updateProgress (db : DB) (recId : Nat) (b : Bool) (now : Nat) : DB :=
  { db with
    progress := db.progress.map fun q =>
      if q.id == recId then { q with completed := b, updatedAt := now } else q }

/-- Upsert `setCompletion` — the store mutation performed by the `action` of the
video route (lines 86-108): look up the existing record by the
`(userId, videoId)` unique key; update it in place when present,
otherwise create a fresh record. -/
def setCompletion (db : DB) (u v : String) (b : Bool) (now : Nat) :
    Except DBError DB :=
  match findUniqueProgress db u v with
  | some p => .ok (updateProgress db p.id b now)
  | none => createProgress db u v b now

/-- Iteration: `N` successive calls of `setCompletion` with the same arguments. -/
def iterSetCompletion (u v : String) (b : Bool) (now : Nat) :
    Nat → DB → Except DBError DB
  | 0, db => .ok db
  | n + 1, db =>
    match setCompletion db u v b now with
    | .ok db2 => iterSetCompletion u v b now n db2
    | .error e => .error e

/-- Two progress rows never agree on both the user and the video
(the `@@unique([userId, videoId])` constraint, pairwise form). -/
def PairDistinct (p q : ProgressRecord) : Prop :=
  ¬(p.userId = q.userId ∧ p.videoId = q.videoId)

/-- Well-formedness enforced by the schema on every reachable store
state: distinct primary keys all below the allocator, the
`(userId, videoId)` unique constraint, and the two foreign keys. -/
def WF (db : DB) : Prop :=
  (db.progress.map fun p => p.id).Nodup ∧
  db.progress.Pairwise PairDistinct ∧
  (∀ p ∈ db.progress, p.userId ∈ db.users ∧ p.videoId ∈ db.videos) ∧
  (∀ p ∈ db.progress, p.id < db.nextId)

/-- Line 83 of the route module:
`const completed = form.get("completed") === "true"` — the form field is
interpreted as `true` exactly when its value is the string `"true"`;
an absent field (`null`) or any other string yields `false`. -/
def parseCompleted (v : Option String) : Bool :=
  v == some ("true")

/-- The full mark-watched action (lines 74-113): parse the form flag,
then upsert the progress record. -/
def markWatchedAction (db : DB) (u vid : String) (formCompleted : Option String)
    (now : Nat) : Except DBError DB :=
  setCompletion db u vid (parseCompleted formCompleted) now

/-! ## Progress aggregator: data model -/

/-- A row of the `Video` table (id, title, source URL, display order). -/
structure Video where
  id : String
  title : String
  videoUrl : String
  ord : Nat
deriving DecidableEq

/-- A row of the `Chapter` table together with its videos (as loaded by
the Dashboard loader's nested `include`). -/
structure Chapter where
  id : String
  title : String
  videos : List Video
deriving DecidableEq

/-- A row of the `Course` table together with its chapters. -/
structure Course where
  id : String
  title : String
  chapters : List Chapter
deriving DecidableEq

/-- Dashboard loader, line 303-304: the progress lookup
`userWithCourses.progress.find(p => p.videoId === video.id)` followed by
the `videoProgress?.completed` truthiness test. -/
def videoCompletedFor (progress : List ProgressRecord) (v : Video) : Bool :=
  ((progress.find? fun p => p.videoId == v.id).map fun p => p.completed).getD false

/-- Dashboard loader, line 301: `courseTotalVideos` accumulates
`chapter.videos.length` over the chapters of the course. -/
def courseTotalVideos (c : Course) : Nat :=
  (c.chapters.map fun ch => ch.videos.length).sum

/-- Dashboard loader, lines 302-307: `courseCompletedVideos` counts the
course's videos whose progress record exists and is completed. -/
def courseCompletedVideos (progress : List ProgressRecord) (c : Course) : Nat :=
  (c.chapters.map fun ch => ch.videos.countP (videoCompletedFor progress)).sum

/-- Dashboard loader, line 313: per-course percentage
`courseTotalVideos > 0 ? (courseCompletedVideos / courseTotalVideos) * 100 : 0`. -/
def courseProgressPct (progress : List ProgressRecord) (c : Course) : ℚ :=
  if 0 < courseTotalVideos c then
    (courseCompletedVideos progress c : ℚ) / (courseTotalVideos c : ℚ) * 100
  else 0

/-- Dashboard loader, lines 293 and 310: `totalVideos` accumulated over
all enrolled courses. -/
def totalVideosAll (courses : List Course) : Nat :=
  (courses.map courseTotalVideos).sum

/-- Dashboard loader, lines 294 and 311: `completedVideos` accumulated
over all enrolled courses. -/
def completedVideosAll (progress : List ProgressRecord) (courses : List Course) : Nat :=
  (courses.map (courseCompletedVideos progress)).sum

/-- Dashboard loader, line 322: overall percentage
`totalVideos > 0 ? (completedVideos / totalVideos) * 100 : 0`. -/
def overallProgressPct (progress : List ProgressRecord) (courses : List Course) : ℚ :=
  if 0 < totalVideosAll courses then
    (completedVideosAll progress courses : ℚ) / (totalVideosAll courses : ℚ) * 100
  else 0

/-! ## Video reference resolver -/

/-- The character class `[\w-]` of the YouTube regular expression
(line 123): ASCII letters, digits, underscore, hyphen. -/
def isIdChar (c : Char) : Bool :=
  c.isAlpha || c.isDigit || c == '_' || c == '-'

/-- The tail of the YouTube pattern, `([\w-]{11})`: exactly eleven
id-characters must follow the matched prefix; the capture is those
eleven characters (the regular expression has no right anchor, so any
further characters are simply not consumed). -/
def ytTake (rest : List Char) : Option (List Char) :=
  if 11 ≤ (rest.takeWhile isIdChar).length then some (rest.take 11) else none

/-- One attempt of the YouTube regular expression
`(?:youtu\.be\/|youtube\.com\/(?:embed\/|v\/|watch\?v=))([\w-]{11})`
at a fixed position: the alternatives are tried in the order of the
pattern (they are mutually exclusive since no two of the four literal
prefixes are compatible). -/
def ytMatchAt (s : List Char) : Option (List Char) :=
  if List.isPrefixOf (String.toList ("youtu.be/")) s then ytTake (s.drop 9)
  else if List.isPrefixOf (String.toList ("youtube.com/embed/")) s then ytTake (s.drop 18)
  else if List.isPrefixOf (String.toList ("youtube.com/v/")) s then ytTake (s.drop 14)
  else if List.isPrefixOf (String.toList ("youtube.com/watch?v=")) s then ytTake (s.drop 20)
  else none

/-- JavaScript `String.match` leftmost-match search: try the pattern at
every position left to right and return the first capture. -/
def rxSearch (m : List Char → Option (List Char)) : List Char → Option (List Char)
  | [] => none
  | c :: cs =>
    match m (c :: cs) with
    | some t => some t
    | none => rxSearch m cs

/-- Leftmost search for the YouTube pattern. -/
def ytSearch (l : List Char) : Option (List Char) :=
  rxSearch ytMatchAt l

/-- One attempt of the Vimeo regular expression `(?:vimeo\.com\/)(\d+)`
at a fixed position: the literal prefix followed by a nonempty greedy
run of digits, which is the capture. -/
def vimeoMatchAt (s : List Char) : Option (List Char) :=
  if List.isPrefixOf (String.toList ("vimeo.com/")) s then
    if 0 < ((s.drop 10).takeWhile Char.isDigit).length then
      some ((s.drop 10).takeWhile Char.isDigit)
    else none
  else none

/-- Leftmost search for the Vimeo pattern. -/
def vimeoSearch (l : List Char) : Option (List Char) :=
  rxSearch vimeoMatchAt l

/-- The resolver's classification: a playable embed reference. -/
inductive VideoRef where
  | youtube (vid : String)
  | vimeo (vid : String)
deriving DecidableEq

/-- Resolver `getVideoId` of the video route component (lines 121-131): the
YouTube pattern is tried first, then the Vimeo pattern; `none` is the
`Unsupported` classification (rendered as the fallback message, not an
error). -/
def getVideoId (url : String) : Option VideoRef :=
  match ytSearch url.toList with
  | some t => some (.youtube (String.mk t))
  | none =>
    match vimeoSearch url.toList with
    | some t => some (.vimeo (String.mk t))
    | none => none

/-- The four literal YouTube forms, in the order of the pattern. -/
def ytPrefixList : List (List Char) :=
  [String.toList ("youtu.be/"), String.toList ("youtube.com/embed/"),
   String.toList ("youtube.com/v/"), String.toList ("youtube.com/watch?v=")]

/-- Spec-side reformulation of "the URL contains one of the YouTube
forms": some position of the string carries one of the four literal
prefixes followed by at least eleven characters of the class
`[A-Za-z0-9_-]`. -/
def HasYtRef (s : String) : Prop :=
  ∃ a p b, s.toList = a ++ p ++ b ∧ p ∈ ytPrefixList ∧
    11 ≤ (b.takeWhile isIdChar).length

/-- Spec-side reformulation of "the URL contains `vimeo.com/<digits>`". -/
def HasVimeoRef (s : String) : Prop :=
  ∃ a b, s.toList = a ++ String.toList ("vimeo.com/") ++ b ∧
    0 < (b.takeWhile Char.isDigit).length

/-! ## Helper lemmas: the progress store -/

theorem pmatch_iff (u v : String) (p : ProgressRecord) :
    pmatch u v p = true ↔ p.userId = u ∧ p.videoId = v := by
  simp [pmatch]

/-- Distinct primary keys identify rows. -/
theorem progress_id_inj (l : List ProgressRecord)
    (hn : (l.map fun p => p.id).Nodup)
    (p q : ProgressRecord) (hp : p ∈ l) (hq : q ∈ l) (h : p.id = q.id) : p = q :=
  List.inj_on_of_nodup_map hn hp hq h

/-- Under the `(userId, videoId)` unique constraint, the rows matching a
given composite key reduce to the row found by `find?`. -/
theorem filter_pmatch_single (l : List ProgressRecord)
    (hpw : l.Pairwise PairDistinct) (u v : String) (p : ProgressRecord)
    (hp : p ∈ l) (hm : pmatch u v p = true) :
    l.filter (pmatch u v) = [p] := by
  induction l with
  | nil => cases hp
  | cons x xs ih =>
    have hx := (List.pairwise_cons.mp hpw).1
    have hxs := (List.pairwise_cons.mp hpw).2
    rcases List.mem_cons.mp hp with rfl | hpxs
    · have hrest : xs.filter (pmatch u v) = [] := by
        apply List.filter_eq_nil_iff.mpr
        intro q hq hqm
        exact hx q hq ⟨((pmatch_iff u v p).mp hm).1.trans
            (((pmatch_iff u v q).mp hqm).1.symm),
          ((pmatch_iff u v p).mp hm).2.trans (((pmatch_iff u v q).mp hqm).2.symm)⟩
      simp [List.filter_cons, hm, hrest]
    · have hxm : pmatch u v x = false := by
        cases hcm : pmatch u v x with
        | false => rfl
        | true =>
          exact absurd ⟨((pmatch_iff u v x).mp hcm).1.trans
              (((pmatch_iff u v p).mp hm).1.symm),
            ((pmatch_iff u v x).mp hcm).2.trans (((pmatch_iff u v p).mp hm).2.symm)⟩
            (hx p hpxs)
      simp [List.filter_cons, hxm, ih hxs hpxs]

/-- Mapping a row transformation that does not touch the key fields
commutes with filtering by the composite key. -/
theorem filter_pmatch_map (l : List ProgressRecord) (f : ProgressRecord → ProgressRecord)
    (hf : ∀ q, (f q).userId = q.userId ∧ (f q).videoId = q.videoId) (u v : String) :
    (l.map f).filter (pmatch u v) = (l.filter (pmatch u v)).map f := by
  induction l with
  | nil => rfl
  | cons x xs ih =>
    have hx : pmatch u v (f x) = pmatch u v x := by
      simp [pmatch, (hf x).1, (hf x).2]
    cases hm : pmatch u v x with
    | false => simp [List.filter_cons, hx, hm, ih]
    | true => simp [List.filter_cons, hx, hm, ih]

/-- The row update performed by the action preserves key fields and ids. -/
theorem updRow_fields (recId : Nat) (b : Bool) (now : Nat) (q : ProgressRecord) :
    (if q.id == recId then { q with completed := b, updatedAt := now } else q).userId
        = q.userId ∧
    (if q.id == recId then { q with completed := b, updatedAt := now } else q).videoId
        = q.videoId ∧
    (if q.id == recId then { q with completed := b, updatedAt := now } else q).id
        = q.id := by
  split <;> exact ⟨rfl, rfl, rfl⟩

/-- Equation: when the composite-key lookup hits, the action updates. -/
theorem setCompletion_eq_update (db : DB) (u v : String) (b : Bool) (now : Nat)
    (p : ProgressRecord) (hf : findUniqueProgress db u v = some p) :
    setCompletion db u v b now = .ok (updateProgress db p.id b now) := by
  unfold setCompletion
  rw [hf]

/-- Equation: when the composite-key lookup misses, the action creates. -/
theorem setCompletion_eq_create (db : DB) (u v : String) (b : Bool) (now : Nat)
    (hf : findUniqueProgress db u v = none) :
    setCompletion db u v b now = createProgress db u v b now := by
  unfold setCompletion
  rw [hf]

/-- Full specification of a successful `setCompletion` call on a
well-formed store: the resulting store is well-formed and carries
exactly one row for the `(u, v)` key, whose flag and timestamp are those
of the call; on the update path the row count is unchanged. -/
theorem setCompletion_ok_spec (db : DB) (u v : String) (b : Bool) (now : Nat)
    (db' : DB) (hwf : WF db) (h : setCompletion db u v b now = .ok db') :
    WF db' ∧
    (∃ r, db'.progress.filter (pmatch u v) = [r] ∧
      r.userId = u ∧ r.videoId = v ∧ r.completed = b ∧ r.updatedAt = now) := by
  obtain ⟨hids, hpw, hfk, hlt⟩ := hwf
  cases hf : findUniqueProgress db u v with
  | some p =>
    rw [setCompletion_eq_update db u v b now p hf] at h
    injection h with h
    subst h
    have hp : p ∈ db.progress := List.mem_of_find?_eq_some hf
    have hpm : pmatch u v p = true := List.find?_some hf
    set f : ProgressRecord → ProgressRecord := fun q =>
      if q.id == p.id then { q with completed := b, updatedAt := now } else q with hfdef
    have hfld : ∀ q, (f q).userId = q.userId ∧ (f q).videoId = q.videoId ∧ (f q).id = q.id := by
      intro q; exact updRow_fields p.id b now q
    have hprog : (updateProgress db p.id b now).progress = db.progress.map f := rfl
    constructor
    · refine ⟨?_, ?_, ?_, ?_⟩
      · rw [hprog, List.map_map]
        have : ((fun q : ProgressRecord => q.id) ∘ f) = fun q : ProgressRecord => q.id := by
          funext q; exact (hfld q).2.2
        rw [this]; exact hids
      · rw [hprog]
        refine List.Pairwise.map f ?_ hpw
        intro a c hac
        intro hcon
        exact hac ⟨((hfld a).1.symm.trans hcon.1).trans (hfld c).1,
          ((hfld a).2.1.symm.trans hcon.2).trans (hfld c).2.1⟩
      · rw [hprog]
        intro q' hq'
        obtain ⟨q, hq, rfl⟩ := List.mem_map.mp hq'
        rw [(hfld q).1, (hfld q).2.1]
        exact hfk q hq
      · rw [hprog]
        intro q' hq'
        obtain ⟨q, hq, rfl⟩ := List.mem_map.mp hq'
        rw [(hfld q).2.2]
        exact hlt q hq
    · refine ⟨f p, ?_, ?_, ?_, ?_, ?_⟩
      · rw [hprog, filter_pmatch_map db.progress f (fun q => ⟨(hfld q).1, (hfld q).2.1⟩) u v,
          filter_pmatch_single db.progress hpw u v p hp hpm]
        rfl
      · rw [(hfld p).1]; exact ((pmatch_iff u v p).mp hpm).1
      · rw [(hfld p).2.1]; exact ((pmatch_iff u v p).mp hpm).2
      · show (if p.id == p.id then { p with completed := b, updatedAt := now } else p).completed = b
        simp
      · show (if p.id == p.id then { p with completed := b, updatedAt := now } else p).updatedAt = now
        simp
  | none =>
    rw [setCompletion_eq_create db u v b now hf] at h
    unfold createProgress at h
    split at h
    next hmem =>
      injection h with h
      subst h
      have hnone : ∀ q ∈ db.progress, ¬ pmatch u v q = true :=
        List.find?_eq_none.mp hf
      set r : ProgressRecord := ⟨db.nextId, u, v, b, now⟩ with hrdef
      have hrm : pmatch u v r = true := by simp [pmatch, hrdef]
      constructor
      · refine ⟨?_, ?_, ?_, ?_⟩
        · show ((db.progress ++ [r]).map fun p => p.id).Nodup
          rw [List.map_append]
          apply List.Nodup.append hids (by simp)
          intro i hi hi'
          simp at hi'
          subst hi'
          obtain ⟨q, hq, hqid⟩ := List.mem_map.mp hi
          exact absurd hqid (Nat.ne_of_lt (hlt q hq))
        · show (db.progress ++ [r]).Pairwise PairDistinct
          rw [List.pairwise_append]
          refine ⟨hpw, by simp, ?_⟩
          intro a ha c hc
          simp at hc
          subst hc
          intro hcon
          exact hnone a ha ((pmatch_iff u v a).mpr ⟨hcon.1, hcon.2⟩)
        · intro q hq
          rcases List.mem_append.mp hq with hq | hq
          · exact hfk q hq
          · simp at hq; subst hq; exact hmem
        · intro q hq
          rcases List.mem_append.mp hq with hq | hq
          · exact Nat.lt_succ_of_lt (hlt q hq)
          · simp at hq; subst hq; exact Nat.lt_succ_self _
      · refine ⟨r, ?_, rfl, rfl, rfl, rfl⟩
        show (db.progress ++ [r]).filter (pmatch u v) = [r]
        rw [List.filter_append, List.filter_eq_nil_iff.mpr hnone]
        simp [hrm]
    next => cases h

/-- When the store already holds exactly the row the call would write,
`setCompletion` returns the store unchanged (the update writes back the
values the row already has). -/
theorem setCompletion_stable (db : DB) (u v : String) (b : Bool) (now : Nat)
    (hids : (db.progress.map fun p => p.id).Nodup)
    (r : ProgressRecord) (hflt : db.progress.filter (pmatch u v) = [r])
    (hb : r.completed = b) (hnow : r.updatedAt = now) :
    setCompletion db u v b now = .ok db := by
  have hrf : r ∈ db.progress.filter (pmatch u v) := by
    rw [hflt]
    simp
  have hrmem : r ∈ db.progress := List.mem_of_mem_filter hrf
  have hrm : pmatch u v r = true := List.of_mem_filter hrf
  cases hf : findUniqueProgress db u v with
  | none => exact absurd hrm (List.find?_eq_none.mp hf r hrmem)
  | some p =>
    have hp : p ∈ db.progress := List.mem_of_find?_eq_some hf
    have hpr : p = r := by
      have hpf : p ∈ db.progress.filter (pmatch u v) :=
        List.mem_filter.mpr ⟨hp, List.find?_some hf⟩
      rw [hflt] at hpf
      simpa using hpf
    subst hpr
    rw [setCompletion_eq_update db u v b now p hf]
    have h1 : ∀ q ∈ db.progress,
        (if q.id == p.id then { q with completed := b, updatedAt := now } else q) = q := by
      intro q hq
      by_cases hid : q.id = p.id
      · have hqp : q = p := progress_id_inj db.progress hids q p hq hp hid
        subst hqp
        rw [← hb, ← hnow]
        simp
      · simp [hid]
    have hmap : (db.progress.map fun q =>
        if q.id == p.id then { q with completed := b, updatedAt := now } else q)
          = db.progress := by
      rw [List.map_congr_left h1]
      simp
    unfold updateProgress
    rw [hmap]

/-- C3: `setCompletion` is idempotent and never duplicates rows: once a
call with flag `b` at clock `now` has produced store `db1`, any further
number of calls with the same arguments returns `.ok db1` again (the
final state is identical regardless of the call count), the store holds
exactly one row for the `(u, v)` key, and that row's flag is `b`.
Well-formedness (`WF`) captures exactly the states reachable under the
schema's unique and foreign-key constraints. -/
theorem setCompletion_idempotent (db db1 : DB) (u v : String) (b : Bool) (now : Nat)
    (hwf : WF db) (h1 : setCompletion db u v b now = .ok db1) :
    ∀ n : Nat, iterSetCompletion u v b now (n + 1) db = .ok db1 ∧
    (db1.progress.filter (pmatch u v)).length = 1 ∧
    ∀ p ∈ db1.progress, p.userId = u → p.videoId = v → p.completed = b := by
  obtain ⟨hwf1, r, hflt, hru, hrv, hrb, hrnow⟩ := setCompletion_ok_spec db u v b now db1 hwf h1
  have hstab : setCompletion db1 u v b now = .ok db1 :=
    setCompletion_stable db1 u v b now hwf1.1 r hflt hrb hrnow
  have hfix : ∀ n, iterSetCompletion u v b now n db1 = .ok db1 := by
    intro n
    induction n with
    | zero => rfl
    | succ m ih =>
      simp only [iterSetCompletion]
      rw [hstab]
      exact ih
  intro n
  refine ⟨?_, ?_, ?_⟩
  · simp only [iterSetCompletion]
    rw [h1]
    exact hfix n
  · rw [hflt]
    rfl
  · intro p hp hpu hpv
    have hpf : p ∈ db1.progress.filter (pmatch u v) :=
      List.mem_filter.mpr ⟨hp, (pmatch_iff u v p).mpr ⟨hpu, hpv⟩⟩
    rw [hflt] at hpf
    simp at hpf
    subst hpf
    exact hrb

/-- Concrete store for the witnesses: one user, one video, no rows. -/
def dbW : DB := ⟨[("u1")], [("v1")], [], 0⟩

/-- State `dbW` after marking video `v1` watched at clock 5. -/
def dbW1 : DB := ⟨[("u1")], [("v1")], [⟨0, ("u1"), ("v1"), true, 5⟩], 1⟩

/-- State `dbW` after the action ran with a non-`"true"` form value at clock 5. -/
def dbW1f : DB := ⟨[("u1")], [("v1")], [⟨0, ("u1"), ("v1"), false, 5⟩], 1⟩

/-- Witness for C3: three calls on the concrete store behave as one. -/
theorem setCompletion_idempotent_witness :
    iterSetCompletion ("u1") ("v1") true 5 3 dbW = .ok dbW1 ∧
    (dbW1.progress.filter (pmatch ("u1") ("v1"))).length = 1 ∧
    ∀ p ∈ dbW1.progress, p.userId = ("u1") → p.videoId = ("v1") → p.completed = true :=
  setCompletion_idempotent dbW dbW1 ("u1") ("v1") true 5
    (by unfold WF PairDistinct; decide) rfl 2

/-- C4: toggle correctness — after `setCompletion (u, v, true)` and then
`setCompletion (u, v, false)`, the store holds exactly one row for
`(u, v)`, its flag is `false`, and the second call updated in place (the
row count did not change). -/
theorem setCompletion_toggle (db db1 : DB) (u v : String) (t1 t2 : Nat)
    (hwf : WF db) (h1 : setCompletion db u v true t1 = .ok db1) :
    ∃ db2, setCompletion db1 u v false t2 = .ok db2 ∧
      db2.progress.length = db1.progress.length ∧
      (db2.progress.filter (pmatch u v)).length = 1 ∧
      ∀ p ∈ db2.progress, p.userId = u → p.videoId = v → p.completed = false := by
  obtain ⟨hwf1, r, hflt, hru, hrv, hrb, hrnow⟩ :=
    setCompletion_ok_spec db u v true t1 db1 hwf h1
  have hrf : r ∈ db1.progress.filter (pmatch u v) := by
    rw [hflt]
    simp
  have hrmem : r ∈ db1.progress := List.mem_of_mem_filter hrf
  have hrm : pmatch u v r = true := List.of_mem_filter hrf
  cases hf : findUniqueProgress db1 u v with
  | none => exact absurd hrm (List.find?_eq_none.mp hf r hrmem)
  | some p =>
    have h2 : setCompletion db1 u v false t2 = .ok (updateProgress db1 p.id false t2) :=
      setCompletion_eq_update db1 u v false t2 p hf
    obtain ⟨hwf2, r2, hflt2, hr2u, hr2v, hr2b, hr2now⟩ :=
      setCompletion_ok_spec db1 u v false t2 _ hwf1 h2
    refine ⟨_, h2, ?_, ?_, ?_⟩
    · show (updateProgress db1 p.id false t2).progress.length = db1.progress.length
      simp [updateProgress]
    · rw [hflt2]
      rfl
    · intro p' hp' hpu hpv
      have hpf : p' ∈ (updateProgress db1 p.id false t2).progress.filter (pmatch u v) :=
        List.mem_filter.mpr ⟨hp', (pmatch_iff u v p').mpr ⟨hpu, hpv⟩⟩
      rw [hflt2] at hpf
      simp at hpf
      subst hpf
      exact hr2b

/-- Witness for C4 on the concrete store. -/
theorem setCompletion_toggle_witness :
    ∃ db2, setCompletion dbW1 ("u1") ("v1") false 7 = .ok db2 ∧
      db2.progress.length = dbW1.progress.length ∧
      (db2.progress.filter (pmatch ("u1") ("v1"))).length = 1 ∧
      ∀ p ∈ db2.progress, p.userId = ("u1") → p.videoId = ("v1") → p.completed = false :=
  setCompletion_toggle dbW dbW1 ("u1") ("v1") 5 7
    (by unfold WF PairDistinct; decide) rfl

/-- C8: on a well-formed store, `setCompletion` fails with `NotFound`
whenever the user or the video does not exist — the failure comes from
the foreign-key check at the storage boundary; since the call returns
`.error` and no new store state, no row is created and the store is
unchanged. -/
theorem setCompletion_notFound (db : DB) (u v : String) (b : Bool) (now : Nat)
    (hwf : WF db) (h : u ∉ db.users ∨ v ∉ db.videos) :
    setCompletion db u v b now = .error .NotFound := by
  obtain ⟨hids, hpw, hfk, hlt⟩ := hwf
  have hf : findUniqueProgress db u v = none := by
    apply List.find?_eq_none.mpr
    intro p hp hpm
    obtain ⟨hpu, hpv⟩ := (pmatch_iff u v p).mp hpm
    rcases h with h | h
    · exact h (hpu ▸ (hfk p hp).1)
    · exact h (hpv ▸ (hfk p hp).2)
  have hc : ¬(u ∈ db.users ∧ v ∈ db.videos) := by
    intro hcon
    rcases h with h | h
    · exact h hcon.1
    · exact h hcon.2
  rw [setCompletion_eq_create db u v b now hf]
  unfold createProgress
  rw [if_neg hc]

/-- Witness for C8: the video id `v2` does not exist in `dbW`. -/
theorem setCompletion_notFound_witness :
    setCompletion dbW ("u1") ("v2") true 5 = .error .NotFound :=
  setCompletion_notFound dbW ("u1") ("v2") true 5
    (by unfold WF PairDistinct; decide) (Or.inr (by decide))

/-- C10: the mark-watched action interprets the `completed` form field as
`true` iff the value is exactly the string `"true"`; an absent field or
variants such as `"True"` or `"1"` parse to `false`, so a successful run
of the action leaves the `(u, vid)` row with `completed = false` rather
than raising an error. -/
theorem completed_flag_parsing :
    (∀ x : Option String, parseCompleted x = true ↔ x = some ("true")) ∧
    parseCompleted none = false ∧
    parseCompleted (some ("True")) = false ∧
    parseCompleted (some ("1")) = false ∧
    (∀ (db : DB) (u vid : String) (x : Option String) (now : Nat) (db' : DB),
      x ≠ some ("true") → WF db → markWatchedAction db u vid x now = .ok db' →
      ∀ p ∈ db'.progress, p.userId = u → p.videoId = vid → p.completed = false) := by
  refine ⟨?_, rfl, rfl, rfl, ?_⟩
  · intro x
    simp [parseCompleted]
  · intro db u vid x now db' hx hwf h
    have hb : parseCompleted x = false := by
      cases hpc : parseCompleted x with
      | false => rfl
      | true => exact absurd (by simpa [parseCompleted] using hpc) hx
    unfold markWatchedAction at h
    rw [hb] at h
    obtain ⟨hwf', r, hflt, hru, hrv, hrb, hrnow⟩ :=
      setCompletion_ok_spec db u vid false now db' hwf h
    intro p hp hpu hpv
    have hpf : p ∈ db'.progress.filter (pmatch u vid) :=
      List.mem_filter.mpr ⟨hp, (pmatch_iff u vid p).mpr ⟨hpu, hpv⟩⟩
    rw [hflt] at hpf
    simp at hpf
    subst hpf
    exact hrb

/-- Witness for C10: the action with the form value `"1"` on the concrete
store succeeds and leaves the row unmarked. -/
theorem completed_flag_parsing_witness :
    ∀ p ∈ dbW1f.progress, p.userId = ("u1") → p.videoId = ("v1") → p.completed = false :=
  completed_flag_parsing.2.2.2.2 dbW ("u1") ("v1") (some ("1")) 5 dbW1f
    (by decide) (by unfold WF PairDistinct; decide) rfl

/-! ## Progress aggregator: theorems -/

/-- Concrete video row used by the example data. -/
def mkVid (i : String) : Video := ⟨i, i, i, 0⟩

/-- Spec section 8, course A: one chapter with 4 videos. -/
def courseA : Course :=
  ⟨("A"), ("Course A"),
   [⟨("A1"), ("A1"), [mkVid ("a1"), mkVid ("a2"), mkVid ("a3"), mkVid ("a4")]⟩]⟩

/-- Spec section 8, course B: one chapter with 1 video. -/
def courseB : Course := ⟨("B"), ("Course B"), [⟨("B1"), ("B1"), [mkVid ("b1")]⟩]⟩

/-- A course with a chapter but no videos at all. -/
def courseZ : Course := ⟨("Z"), ("Course Z"), [⟨("Z1"), ("Z1"), []⟩]⟩

/-- Progress of the example user: a1, a2 and b1 completed. -/
def progAB : List ProgressRecord :=
  [⟨0, ("u"), ("a1"), true, 0⟩, ⟨1, ("u"), ("a2"), true, 0⟩, ⟨2, ("u"), ("b1"), true, 0⟩]

/-- A course with 2 videos, for the C1 counterexample. -/
def courseC2 : Course :=
  ⟨("C"), ("Course C"), [⟨("C1"), ("C1"), [mkVid ("c1"), mkVid ("c2")]⟩]⟩

/-- Progress for the C1 counterexample: c1, a1, a2 completed (both
courses at 50%). -/
def progCA : List ProgressRecord :=
  [⟨0, ("u"), ("c1"), true, 0⟩, ⟨1, ("u"), ("a1"), true, 0⟩, ⟨2, ("u"), ("a2"), true, 0⟩]

/-- C2: the per-course percentage equals completed/total*100 when the
course has at least one video, and is exactly 0 when it has none (a
total rational value, never NaN or undefined); the same zero-total
policy holds for the overall percentage. -/
theorem percentage_zero_policy (progress : List ProgressRecord) (c : Course)
    (courses : List Course) :
    (0 < courseTotalVideos c →
      courseProgressPct progress c =
        (courseCompletedVideos progress c : ℚ) / (courseTotalVideos c : ℚ) * 100) ∧
    (courseTotalVideos c = 0 → courseProgressPct progress c = 0) ∧
    (0 < totalVideosAll courses →
      overallProgressPct progress courses =
        (completedVideosAll progress courses : ℚ) / (totalVideosAll courses : ℚ) * 100) ∧
    (totalVideosAll courses = 0 → overallProgressPct progress courses = 0) := by
  refine ⟨?_, ?_, ?_, ?_⟩
  · intro h
    unfold courseProgressPct
    rw [if_pos h]
  · intro h
    unfold courseProgressPct
    rw [if_neg (by omega)]
  · intro h
    unfold overallProgressPct
    rw [if_pos h]
  · intro h
    unfold overallProgressPct
    rw [if_neg (by omega)]

/-- Witness for C2: the formula on a 4-video course, the zero policy on
a videoless course, and both behaviours of the overall percentage. -/
theorem percentage_zero_policy_witness :
    courseProgressPct progAB courseA =
      (courseCompletedVideos progAB courseA : ℚ) / (courseTotalVideos courseA : ℚ) * 100 ∧
    courseProgressPct progAB courseZ = 0 ∧
    overallProgressPct progAB [courseA, courseB] =
      (completedVideosAll progAB [courseA, courseB] : ℚ) /
        (totalVideosAll [courseA, courseB] : ℚ) * 100 ∧
    overallProgressPct progAB ([] : List Course) = 0 :=
  ⟨(percentage_zero_policy progAB courseA []).1 (by decide),
   (percentage_zero_policy progAB courseZ []).2.1 (by decide),
   (percentage_zero_policy progAB courseA [courseA, courseB]).2.2.1 (by decide),
   (percentage_zero_policy progAB courseA []).2.2.2 rfl⟩

/-- The spec's example, course A: 2 of 4 videos completed gives 50%. -/
theorem courseA_pct : courseProgressPct progAB courseA = 50 := by
  have e1 : courseCompletedVideos progAB courseA = 2 := rfl
  have e2 : courseTotalVideos courseA = 4 := rfl
  simp [courseProgressPct, e1, e2]
  norm_num

/-- The spec's example, course B: 1 of 1 videos completed gives 100%. -/
theorem courseB_pct : courseProgressPct progAB courseB = 100 := by
  have e1 : courseCompletedVideos progAB courseB = 1 := rfl
  have e2 : courseTotalVideos courseB = 1 := rfl
  simp [courseProgressPct, e1, e2]

/-- The spec's example, overall: (2+1)/(4+1) gives 60%. -/
theorem overallAB_pct : overallProgressPct progAB [courseA, courseB] = 60 := by
  have e1 : completedVideosAll progAB [courseA, courseB] = 3 := rfl
  have e2 : totalVideosAll [courseA, courseB] = 5 := rfl
  simp [overallProgressPct, e1, e2]
  norm_num

/-- C1 (amended): the overall percentage aggregates the combined counts
(sum of completed over sum of total across all enrolled courses, times
100), which is not in general the arithmetic mean of the per-course
percentages: in the spec's example (course A: 4 videos, 2 completed;
course B: 1 video, 1 completed) the overall is 60 while the mean is 75.
The claim's universal clause — that overall and mean differ for EVERY
configuration with differing course sizes — fails (see the
counterexample); what holds is that they can differ, as this example
shows. -/
theorem overall_weighted_sum :
    (∀ (progress : List ProgressRecord) (courses : List Course),
      0 < totalVideosAll courses →
      overallProgressPct progress courses =
        (completedVideosAll progress courses : ℚ) / (totalVideosAll courses : ℚ) * 100) ∧
    courseProgressPct progAB courseA = 50 ∧
    courseProgressPct progAB courseB = 100 ∧
    overallProgressPct progAB [courseA, courseB] = 60 ∧
    (courseProgressPct progAB courseA + courseProgressPct progAB courseB) / 2 = 75 ∧
    (60 : ℚ) ≠ 75 := by
  refine ⟨?_, courseA_pct, courseB_pct, overallAB_pct, ?_, by norm_num⟩
  · intro progress courses h
    unfold overallProgressPct
    rw [if_pos h]
  · rw [courseA_pct, courseB_pct]
    norm_num

/-- Witness for C1: the weighted formula instantiated at the spec's
example configuration. -/
theorem overall_weighted_sum_witness :
    overallProgressPct progAB [courseA, courseB] =
      (completedVideosAll progAB [courseA, courseB] : ℚ) /
        (totalVideosAll [courseA, courseB] : ℚ) * 100 :=
  overall_weighted_sum.1 progAB [courseA, courseB] (by decide)

/-- C1 counterexample: two enrolled courses of different sizes (2 videos
with 1 completed, and 4 videos with 2 completed) whose overall
percentage (50) EQUALS the arithmetic mean of the per-course percentages
(both 50) — refuting the clause that the overall percentage "is not the
arithmetic mean of the per-course percentages whenever course sizes
differ". -/
theorem overall_equals_mean_cex :
    courseTotalVideos courseC2 ≠ courseTotalVideos courseA ∧
    overallProgressPct progCA [courseC2, courseA] =
      (courseProgressPct progCA courseC2 + courseProgressPct progCA courseA) / 2 := by
  refine ⟨by decide, ?_⟩
  have h1 : courseProgressPct progCA courseC2 = 50 := by
    have e1 : courseCompletedVideos progCA courseC2 = 1 := rfl
    have e2 : courseTotalVideos courseC2 = 2 := rfl
    simp [courseProgressPct, e1, e2]
    norm_num
  have h2 : courseProgressPct progCA courseA = 50 := by
    have e1 : courseCompletedVideos progCA courseA = 2 := rfl
    have e2 : courseTotalVideos courseA = 4 := rfl
    simp [courseProgressPct, e1, e2]
    norm_num
  have h3 : overallProgressPct progCA [courseC2, courseA] = 50 := by
    have e1 : completedVideosAll progCA [courseC2, courseA] = 3 := rfl
    have e2 : totalVideosAll [courseC2, courseA] = 6 := rfl
    simp [overallProgressPct, e1, e2]
    norm_num
  rw [h1, h2, h3]
  norm_num

/-- Pointwise comparison of mapped sums of naturals. -/
theorem sum_map_le_sum_map {α : Type} (l : List α) (f g : α → Nat)
    (h : ∀ x ∈ l, f x ≤ g x) : (l.map f).sum ≤ (l.map g).sum := by
  induction l with
  | nil => simp
  | cons x xs ih =>
    simp only [List.map_cons, List.sum_cons]
    have hx := h x (by simp)
    have hxs := ih fun y hy => h y (by simp [hy])
    omega

/-- Each video contributes at most one completed count: the completed
count of a course never exceeds its video count. -/
theorem courseCompleted_le_total (progress : List ProgressRecord) (c : Course) :
    courseCompletedVideos progress c ≤ courseTotalVideos c := by
  unfold courseCompletedVideos courseTotalVideos
  exact sum_map_le_sum_map _ _ _ fun ch _ => List.countP_le_length _

/-- The combined completed count never exceeds the combined total. -/
theorem completedAll_le_totalAll (progress : List ProgressRecord)
    (courses : List Course) :
    completedVideosAll progress courses ≤ totalVideosAll courses := by
  unfold completedVideosAll totalVideosAll
  exact sum_map_le_sum_map _ _ _ fun c _ => courseCompleted_le_total progress c

/-- The percentage formula of the loader stays within [0, 100] whenever
the numerator is at most the denominator. -/
theorem ratio_pct_bounds (cnt tot : Nat) (hle : cnt ≤ tot) :
    0 ≤ (if 0 < tot then (cnt : ℚ) / (tot : ℚ) * 100 else 0) ∧
    (if 0 < tot then (cnt : ℚ) / (tot : ℚ) * 100 else 0) ≤ 100 := by
  by_cases h : 0 < tot
  · rw [if_pos h]
    constructor
    · positivity
    · have htot : (0 : ℚ) < tot := by exact_mod_cast h
      have hc : (cnt : ℚ) ≤ tot := by exact_mod_cast hle
      have hdiv : (cnt : ℚ) / tot ≤ 1 := (div_le_one htot).mpr hc
      calc (cnt : ℚ) / tot * 100 ≤ 1 * 100 :=
            mul_le_mul_of_nonneg_right hdiv (by norm_num)
        _ = 100 := by norm_num
  · rw [if_neg h]
    norm_num

/-- C9: when there is at most one progress row per (user, video) pair,
every per-course percentage and the overall percentage computed by the
aggregator lie between 0 and 100 inclusive (each video contributes at
most one completed count, so completed never exceeds total). -/
theorem percentages_bounded (progress : List ProgressRecord)
    (courses : List Course) (c : Course)
    (_hone : progress.Pairwise PairDistinct) :
    0 ≤ courseProgressPct progress c ∧ courseProgressPct progress c ≤ 100 ∧
    0 ≤ overallProgressPct progress courses ∧
    overallProgressPct progress courses ≤ 100 := by
  have h1 := ratio_pct_bounds (courseCompletedVideos progress c) (courseTotalVideos c)
    (courseCompleted_le_total progress c)
  have h2 := ratio_pct_bounds (completedVideosAll progress courses)
    (totalVideosAll courses) (completedAll_le_totalAll progress courses)
  unfold courseProgressPct overallProgressPct
  exact ⟨h1.1, h1.2, h2.1, h2.2⟩

/-- Witness for C9 on the spec's example data. -/
theorem percentages_bounded_witness :
    0 ≤ courseProgressPct progAB courseA ∧ courseProgressPct progAB courseA ≤ 100 ∧
    0 ≤ overallProgressPct progAB [courseA, courseB] ∧
    overallProgressPct progAB [courseA, courseB] ≤ 100 :=
  percentages_bounded progAB [courseA, courseB] courseA
    (by unfold PairDistinct; decide)

/-! ## Resolver: helper lemmas -/

/-- Boolean `isPrefixOf` agrees with the append decomposition. -/
theorem isPrefixOf_iff_append : ∀ (l₁ l₂ : List Char),
    l₁.isPrefixOf l₂ = true ↔ ∃ t, l₂ = l₁ ++ t
  | [], l₂ => by
    simp [List.isPrefixOf]
  | a :: as, [] => by
    simp [List.isPrefixOf]
  | a :: as, b :: bs => by
    simp only [List.isPrefixOf, Bool.and_eq_true, beq_iff_eq, List.cons_append]
    constructor
    · rintro ⟨rfl, h⟩
      obtain ⟨t, rfl⟩ := (isPrefixOf_iff_append as bs).mp h
      exact ⟨t, rfl⟩
    · rintro ⟨t, ht⟩
      injection ht with h1 h2
      subst h1
      exact ⟨rfl, (isPrefixOf_iff_append as bs).mpr ⟨t, h2⟩⟩

/-- A candidate prefix that disagrees with the head of an appended list
inside their overlap is not a prefix of the whole, whatever the tail. -/
theorem not_isPrefixOf_extension (p1 p b : List Char) (n : Nat)
    (hn1 : n ≤ p1.length) (hn : n ≤ p.length) (hne : p1.take n ≠ p.take n) :
    p1.isPrefixOf (p ++ b) = false := by
  cases hb : p1.isPrefixOf (p ++ b) with
  | false => rfl
  | true =>
    obtain ⟨t, ht⟩ := (isPrefixOf_iff_append p1 (p ++ b)).mp hb
    exfalso
    apply hne
    calc p1.take n = (p1 ++ t).take n := (List.take_append_of_le_length hn1).symm
      _ = (p ++ b).take n := by rw [← ht]
      _ = p.take n := List.take_append_of_le_length hn

/-- Truncation `takeWhile` never yields more elements than the list has. -/
theorem takeWhile_len_le (q : Char → Bool) (l : List Char) :
    (l.takeWhile q).length ≤ l.length := by
  induction l with
  | nil => simp
  | cons c cs ih =>
    rw [List.takeWhile_cons]
    cases q c with
    | false => simp
    | true => simpa using ih

/-- Every element of `l.take n` satisfies `q` when `n` does not exceed
the length of `l.takeWhile q`. -/
theorem take_sat_of_takeWhile (q : Char → Bool) :
    ∀ (l : List Char) (n : Nat), n ≤ (l.takeWhile q).length →
      ∀ c ∈ l.take n, q c = true := by
  intro l
  induction l with
  | nil =>
    intro n h c hc
    simp at hc
  | cons x xs ih =>
    intro n h c hc
    cases n with
    | zero => simp at hc
    | succ m =>
      rw [List.takeWhile_cons] at h
      cases hqx : q x with
      | false =>
        rw [hqx] at h
        simp at h
      | true =>
        rw [hqx] at h
        simp only [if_pos, List.length_cons] at h
        rw [List.take_succ_cons] at hc
        rcases List.mem_cons.mp hc with rfl | hc2
        · exact hqx
        · exact ih m (Nat.le_of_succ_le_succ h) c hc2

/-- The eleven-character tail matcher succeeds exactly on tails starting
with at least eleven id characters. -/
theorem ytTake_isSome_iff (rest : List Char) :
    (ytTake rest).isSome = true ↔ 11 ≤ (rest.takeWhile isIdChar).length := by
  unfold ytTake
  by_cases h : 11 ≤ (rest.takeWhile isIdChar).length
  · simp [h]
  · simp [h]

/-- What a successful `ytTake` returns: the first eleven characters. -/
theorem ytTake_eq_some (rest t : List Char) (h : ytTake rest = some t) :
    t = rest.take 11 ∧ 11 ≤ (rest.takeWhile isIdChar).length := by
  unfold ytTake at h
  split at h
  next hc =>
    injection h with h
    exact ⟨h.symm, hc⟩
  next => cases h

/-- The YouTube matcher at a position starting with `youtu.be/`. -/
theorem ytMatchAt_p1 (b : List Char) :
    ytMatchAt (String.toList ("youtu.be/") ++ b) = ytTake b := by
  have h1 : (String.toList ("youtu.be/")).isPrefixOf
      (String.toList ("youtu.be/") ++ b) = true :=
    (isPrefixOf_iff_append _ _).mpr ⟨b, rfl⟩
  unfold ytMatchAt
  rw [h1]
  simp

/-- The YouTube matcher at a position starting with `youtube.com/embed/`. -/
theorem ytMatchAt_p2 (b : List Char) :
    ytMatchAt (String.toList ("youtube.com/embed/") ++ b) = ytTake b := by
  have h1 : (String.toList ("youtu.be/")).isPrefixOf
      (String.toList ("youtube.com/embed/") ++ b) = false :=
    not_isPrefixOf_extension _ _ b 9 (by decide) (by decide) (by decide)
  have h2 : (String.toList ("youtube.com/embed/")).isPrefixOf
      (String.toList ("youtube.com/embed/") ++ b) = true :=
    (isPrefixOf_iff_append _ _).mpr ⟨b, rfl⟩
  unfold ytMatchAt
  rw [h1, h2]
  simp

/-- The YouTube matcher at a position starting with `youtube.com/v/`. -/
theorem ytMatchAt_p3 (b : List Char) :
    ytMatchAt (String.toList ("youtube.com/v/") ++ b) = ytTake b := by
  have h1 : (String.toList ("youtu.be/")).isPrefixOf
      (String.toList ("youtube.com/v/") ++ b) = false :=
    not_isPrefixOf_extension _ _ b 9 (by decide) (by decide) (by decide)
  have h2 : (String.toList ("youtube.com/embed/")).isPrefixOf
      (String.toList ("youtube.com/v/") ++ b) = false :=
    not_isPrefixOf_extension _ _ b 14 (by decide) (by decide) (by decide)
  have h3 : (String.toList ("youtube.com/v/")).isPrefixOf
      (String.toList ("youtube.com/v/") ++ b) = true :=
    (isPrefixOf_iff_append _ _).mpr ⟨b, rfl⟩
  unfold ytMatchAt
  rw [h1, h2, h3]
  simp

/-- The YouTube matcher at a position starting with `youtube.com/watch?v=`. -/
theorem ytMatchAt_p4 (b : List Char) :
    ytMatchAt (String.toList ("youtube.com/watch?v=") ++ b) = ytTake b := by
  have h1 : (String.toList ("youtu.be/")).isPrefixOf
      (String.toList ("youtube.com/watch?v=") ++ b) = false :=
    not_isPrefixOf_extension _ _ b 9 (by decide) (by decide) (by decide)
  have h2 : (String.toList ("youtube.com/embed/")).isPrefixOf
      (String.toList ("youtube.com/watch?v=") ++ b) = false :=
    not_isPrefixOf_extension _ _ b 18 (by decide) (by decide) (by decide)
  have h3 : (String.toList ("youtube.com/v/")).isPrefixOf
      (String.toList ("youtube.com/watch?v=") ++ b) = false :=
    not_isPrefixOf_extension _ _ b 14 (by decide) (by decide) (by decide)
  have h4 : (String.toList ("youtube.com/watch?v=")).isPrefixOf
      (String.toList ("youtube.com/watch?v=") ++ b) = true :=
    (isPrefixOf_iff_append _ _).mpr ⟨b, rfl⟩
  unfold ytMatchAt
  rw [h1, h2, h3, h4]
  simp

/-- The YouTube matcher succeeds at a position exactly when the position
starts with one of the four literal forms followed by at least eleven id
characters. -/
theorem ytMatchAt_isSome_iff (s : List Char) :
    (ytMatchAt s).isSome = true ↔
      ∃ p b, s = p ++ b ∧ p ∈ ytPrefixList ∧
        11 ≤ (b.takeWhile isIdChar).length := by
  constructor
  · intro h
    unfold ytMatchAt at h
    split at h
    next h1 =>
      obtain ⟨b, rfl⟩ := (isPrefixOf_iff_append _ _).mp h1
      have hd : (String.toList ("youtu.be/") ++ b).drop 9 = b := rfl
      rw [hd] at h
      exact ⟨_, b, rfl, by simp [ytPrefixList], (ytTake_isSome_iff b).mp h⟩
    next =>
      split at h
      next h2 =>
        obtain ⟨b, rfl⟩ := (isPrefixOf_iff_append _ _).mp h2
        have hd : (String.toList ("youtube.com/embed/") ++ b).drop 18 = b := rfl
        rw [hd] at h
        exact ⟨_, b, rfl, by simp [ytPrefixList], (ytTake_isSome_iff b).mp h⟩
      next =>
        split at h
        next h3 =>
          obtain ⟨b, rfl⟩ := (isPrefixOf_iff_append _ _).mp h3
          have hd : (String.toList ("youtube.com/v/") ++ b).drop 14 = b := rfl
          rw [hd] at h
          exact ⟨_, b, rfl, by simp [ytPrefixList], (ytTake_isSome_iff b).mp h⟩
        next =>
          split at h
          next h4 =>
            obtain ⟨b, rfl⟩ := (isPrefixOf_iff_append _ _).mp h4
            have hd : (String.toList ("youtube.com/watch?v=") ++ b).drop 20 = b := rfl
            rw [hd] at h
            exact ⟨_, b, rfl, by simp [ytPrefixList], (ytTake_isSome_iff b).mp h⟩
          next => cases h
  · rintro ⟨p, b, rfl, hp, hlen⟩
    simp only [ytPrefixList, List.mem_cons, List.not_mem_nil, or_false] at hp
    rcases hp with rfl | rfl | rfl | rfl
    · rw [ytMatchAt_p1]
      exact (ytTake_isSome_iff b).mpr hlen
    · rw [ytMatchAt_p2]
      exact (ytTake_isSome_iff b).mpr hlen
    · rw [ytMatchAt_p3]
      exact (ytTake_isSome_iff b).mpr hlen
    · rw [ytMatchAt_p4]
      exact (ytTake_isSome_iff b).mpr hlen

/-- A successful YouTube match returns eleven id characters. -/
theorem ytMatchAt_some_spec (s t : List Char) (h : ytMatchAt s = some t) :
    t.length = 11 ∧ ∀ c ∈ t, isIdChar c = true := by
  have htake : ∀ rest : List Char, ytTake rest = some t →
      t.length = 11 ∧ ∀ c ∈ t, isIdChar c = true := by
    intro rest hr
    obtain ⟨rfl, hlen⟩ := ytTake_eq_some rest t hr
    refine ⟨?_, ?_⟩
    · rw [List.length_take]
      have h2 : 11 ≤ rest.length := le_trans hlen (takeWhile_len_le _ _)
      omega
    · intro c hc
      exact take_sat_of_takeWhile isIdChar rest 11 hlen c hc
  unfold ytMatchAt at h
  split at h
  next => exact htake _ h
  next =>
    split at h
    next => exact htake _ h
    next =>
      split at h
      next => exact htake _ h
      next =>
        split at h
        next => exact htake _ h
        next => cases h

/-- The leftmost scanner succeeds exactly when the pattern matches at
some position (equivalently: on some suffix). -/
theorem rxSearch_isSome_iff (m : List Char → Option (List Char))
    (hnil : m [] = none) :
    ∀ l : List Char, (rxSearch m l).isSome = true ↔
      ∃ a b, l = a ++ b ∧ (m b).isSome = true := by
  intro l
  induction l with
  | nil =>
    constructor
    · intro h
      cases h
    · rintro ⟨a, b, hab, hm⟩
      have hb : b = [] := (List.append_eq_nil.mp hab.symm).2
      subst hb
      rw [hnil] at hm
      cases hm
  | cons c cs ih =>
    simp only [rxSearch]
    cases hm : m (c :: cs) with
    | some t =>
      constructor
      · intro _
        exact ⟨[], c :: cs, rfl, by rw [hm]; rfl⟩
      · intro _
        rfl
    | none =>
      constructor
      · intro h
        obtain ⟨a, b, hab, hb⟩ := ih.mp h
        exact ⟨c :: a, b, by rw [hab]; rfl, hb⟩
      · rintro ⟨a, b, hab, hb⟩
        apply ih.mpr
        cases a with
        | nil =>
          simp at hab
          rw [hab] at hm
          rw [hm] at hb
          cases hb
        | cons a0 as =>
          injection hab with h1 h2
          exact ⟨as, b, h2, hb⟩

/-- A successful scan returns a capture produced by the pattern at some
position. -/
theorem rxSearch_some (m : List Char → Option (List Char)) :
    ∀ (l t : List Char), rxSearch m l = some t → ∃ b, m b = some t := by
  intro l
  induction l with
  | nil =>
    intro t h
    cases h
  | cons c cs ih =>
    intro t h
    simp only [rxSearch] at h
    cases hm : m (c :: cs) with
    | some w =>
      rw [hm] at h
      injection h with h
      subst h
      exact ⟨c :: cs, hm⟩
    | none =>
      rw [hm] at h
      exact ih t h

/-- The Vimeo matcher succeeds at a position exactly when the position
starts with `vimeo.com/` followed by at least one digit. -/
theorem vimeoMatchAt_isSome_iff (s : List Char) :
    (vimeoMatchAt s).isSome = true ↔
      ∃ b, s = String.toList ("vimeo.com/") ++ b ∧
        0 < (b.takeWhile Char.isDigit).length := by
  constructor
  · intro h
    unfold vimeoMatchAt at h
    split at h
    next h1 =>
      obtain ⟨b, rfl⟩ := (isPrefixOf_iff_append _ _).mp h1
      have hd : (String.toList ("vimeo.com/") ++ b).drop 10 = b := rfl
      rw [hd] at h
      split at h
      next h2 => exact ⟨b, rfl, h2⟩
      next => cases h
    next => cases h
  · rintro ⟨b, rfl, hlen⟩
    have h1 : (String.toList ("vimeo.com/")).isPrefixOf
        (String.toList ("vimeo.com/") ++ b) = true :=
      (isPrefixOf_iff_append _ _).mpr ⟨b, rfl⟩
    unfold vimeoMatchAt
    rw [h1]
    have hd : (String.toList ("vimeo.com/") ++ b).drop 10 = b := rfl
    simp only [if_pos, hd]
    rw [if_pos hlen]
    rfl

/-- The spec-side "contains a YouTube form" predicate coincides with
success of the YouTube scan. -/
theorem hasYtRef_iff_search (s : String) :
    HasYtRef s ↔ (ytSearch s.toList).isSome = true := by
  unfold ytSearch
  rw [rxSearch_isSome_iff ytMatchAt rfl]
  unfold HasYtRef
  constructor
  · rintro ⟨a, p, b, hab, hp, hlen⟩
    exact ⟨a, p ++ b, by rw [hab, List.append_assoc],
      (ytMatchAt_isSome_iff _).mpr ⟨p, b, rfl, hp, hlen⟩⟩
  · rintro ⟨a, b, hab, hm⟩
    obtain ⟨p, b2, rfl, hp, hlen⟩ := (ytMatchAt_isSome_iff b).mp hm
    exact ⟨a, p, b2, by rw [hab, List.append_assoc], hp, hlen⟩

/-- The spec-side "contains a Vimeo form" predicate coincides with
success of the Vimeo scan. -/
theorem hasVimeoRef_iff_search (s : String) :
    HasVimeoRef s ↔ (vimeoSearch s.toList).isSome = true := by
  unfold vimeoSearch
  rw [rxSearch_isSome_iff vimeoMatchAt rfl]
  unfold HasVimeoRef
  constructor
  · rintro ⟨a, b, hab, hlen⟩
    exact ⟨a, String.toList ("vimeo.com/") ++ b, by rw [hab, List.append_assoc],
      (vimeoMatchAt_isSome_iff _).mpr ⟨b, rfl, hlen⟩⟩
  · rintro ⟨a, b, hab, hm⟩
    obtain ⟨b2, rfl, hlen⟩ := (vimeoMatchAt_isSome_iff b).mp hm
    exact ⟨a, b2, by rw [hab, List.append_assoc], hlen⟩

/-- Equation: a successful YouTube scan determines the classification. -/
theorem getVideoId_eq_yt (s : String) (t : List Char)
    (h : ytSearch s.toList = some t) :
    getVideoId s = some (VideoRef.youtube (String.mk t)) := by
  unfold getVideoId
  rw [h]

/-- Equation: when the YouTube scan fails, the Vimeo scan decides. -/
theorem getVideoId_eq_no_yt (s : String) (h : ytSearch s.toList = none) :
    getVideoId s =
      (match vimeoSearch s.toList with
       | some t => some (VideoRef.vimeo (String.mk t))
       | none => none) := by
  unfold getVideoId
  rw [h]

/-- The resolver classifies as YouTube exactly when the URL contains a
YouTube form. -/
theorem getVideoId_youtube_iff (s : String) :
    (∃ t, getVideoId s = some (VideoRef.youtube t)) ↔ HasYtRef s := by
  rw [hasYtRef_iff_search]
  cases hy : ytSearch s.toList with
  | some t =>
    constructor
    · intro _
      rfl
    · intro _
      exact ⟨String.mk t, getVideoId_eq_yt s t hy⟩
  | none =>
    constructor
    · rintro ⟨t, ht⟩
      rw [getVideoId_eq_no_yt s hy] at ht
      exfalso
      cases hv : vimeoSearch s.toList with
      | some w =>
        rw [hv] at ht
        cases ht
      | none =>
        rw [hv] at ht
        cases ht
    · intro hfalse
      cases hfalse

/-- Any id the resolver extracts for YouTube is exactly eleven
characters of the class [A-Za-z0-9_-]. -/
theorem getVideoId_youtube_shape (s t : String)
    (h : getVideoId s = some (VideoRef.youtube t)) :
    t.length = 11 ∧ ∀ c ∈ t.toList, isIdChar c = true := by
  cases hy : ytSearch s.toList with
  | none =>
    rw [getVideoId_eq_no_yt s hy] at h
    exfalso
    cases hv : vimeoSearch s.toList with
    | some w =>
      rw [hv] at h
      cases h
    | none =>
      rw [hv] at h
      cases h
  | some u =>
    rw [getVideoId_eq_yt s u hy] at h
    injection h with h
    injection h with h
    obtain ⟨b, hb⟩ := rxSearch_some ytMatchAt s.toList u hy
    obtain ⟨hlen, hall⟩ := ytMatchAt_some_spec b u hb
    subst h
    constructor
    · exact hlen
    · intro c hc
      exact hall c hc

/-- Concrete URL of the spec's YouTube example. -/
def urlYt : String := "https://youtu.be/dQw4w9WgXcQ"

/-- C5 (amended): the resolver classifies a URL as YouTube exactly when
the URL contains one of the forms `youtu.be/<id>`, `youtube.com/embed/<id>`,
`youtube.com/v/<id>`, `youtube.com/watch?v=<id>` where `<id>` is AT
LEAST eleven characters from [A-Za-z0-9_-]; the extracted id is then
exactly eleven such characters — the first eleven of the segment.  A
segment shorter than eleven characters is never recognized, but a longer
segment IS recognized and truncated to its first eleven characters (the
original claim's "any length other than exactly 11 is not recognized" is
refuted by the counterexample).  In particular
`https://youtu.be/dQw4w9WgXcQ` resolves to YouTube id `dQw4w9WgXcQ`. -/
theorem youtube_resolution :
    (∀ s : String, (∃ t, getVideoId s = some (VideoRef.youtube t)) ↔ HasYtRef s) ∧
    (∀ s t, getVideoId s = some (VideoRef.youtube t) →
      t.length = 11 ∧ ∀ c ∈ t.toList, isIdChar c = true) ∧
    getVideoId urlYt = some (VideoRef.youtube ("dQw4w9WgXcQ")) :=
  ⟨getVideoId_youtube_iff, getVideoId_youtube_shape, by decide⟩

/-- Witness for C5: the extracted id of the example URL has the required
shape; obtained by applying the amended theorem at the example. -/
theorem youtube_resolution_witness :
    (("dQw4w9WgXcQ") : String).length = 11 ∧
    ∀ c ∈ (("dQw4w9WgXcQ") : String).toList, isIdChar c = true :=
  youtube_resolution.2.1 urlYt ("dQw4w9WgXcQ") youtube_resolution.2.2

/-- C5 counterexample: a URL whose candidate id segment after
`youtu.be/` consists of 13 id-characters is still recognized as
YouTube — the resolver captures the first eleven characters — refuting
"a candidate id segment of any length other than exactly 11 such
characters is not recognized as YouTube". -/
theorem youtube_long_segment_cex :
    ((("abcdefghijklm") : String).toList.takeWhile isIdChar).length = 13 ∧
    getVideoId ("https://youtu.be/abcdefghijklm") =
      some (VideoRef.youtube ("abcdefghijk")) :=
  ⟨by decide, by decide⟩

/-- C6: resolver precedence — the YouTube pattern is tried before the
Vimeo pattern, so a URL containing both a YouTube form and a Vimeo-like
substring resolves as YouTube and never as Vimeo. -/
theorem youtube_precedence (s : String) (hy : HasYtRef s) (_hv : HasVimeoRef s) :
    (∃ t, getVideoId s = some (VideoRef.youtube t)) ∧
    ∀ t, getVideoId s ≠ some (VideoRef.vimeo t) := by
  obtain ⟨t, ht⟩ := (getVideoId_youtube_iff s).mpr hy
  refine ⟨⟨t, ht⟩, ?_⟩
  intro w hw
  rw [ht] at hw
  cases hw

/-- Concrete URL that contains a YouTube form and a Vimeo-like substring. -/
def urlBoth : String := "https://youtu.be/abcdefghijk?from=vimeo.com/123"

/-- Witness for C6 at the concrete doubly-matching URL. -/
theorem youtube_precedence_witness :
    (∃ t, getVideoId urlBoth = some (VideoRef.youtube t)) ∧
    ∀ t, getVideoId urlBoth ≠ some (VideoRef.vimeo t) :=
  youtube_precedence urlBoth
    ((hasYtRef_iff_search urlBoth).mpr (by decide))
    ((hasVimeoRef_iff_search urlBoth).mpr (by decide))

/-- A failed YouTube scan refutes the spec-side predicate. -/
theorem not_hasYtRef (s : String) (h : ytSearch s.toList = none) :
    ¬HasYtRef s := by
  intro hy
  have hs := (hasYtRef_iff_search s).mp hy
  rw [h] at hs
  cases hs

/-- A failed Vimeo scan refutes the spec-side predicate. -/
theorem not_hasVimeoRef (s : String) (h : vimeoSearch s.toList = none) :
    ¬HasVimeoRef s := by
  intro hv
  have hs := (hasVimeoRef_iff_search s).mp hv
  rw [h] at hs
  cases hs

/-- C7: a URL containing neither a YouTube form nor `vimeo.com/<digits>`
resolves to the `Unsupported` classification (`none` — a normal terminal
result rendered as a fallback, not a raised error); in particular
`https://example.com/video.mp4` is unsupported. -/
theorem unsupported_fallback :
    (∀ s : String, ¬HasYtRef s → ¬HasVimeoRef s → getVideoId s = none) ∧
    getVideoId ("https://example.com/video.mp4") = none := by
  refine ⟨?_, by decide⟩
  intro s hy hv
  have hys : ytSearch s.toList = none := by
    cases h : ytSearch s.toList with
    | none => rfl
    | some t =>
      exact absurd ((hasYtRef_iff_search s).mpr (by rw [h]; rfl)) hy
  have hvs : vimeoSearch s.toList = none := by
    cases h : vimeoSearch s.toList with
    | none => rfl
    | some t =>
      exact absurd ((hasVimeoRef_iff_search s).mpr (by rw [h]; rfl)) hv
  rw [getVideoId_eq_no_yt s hys, hvs]

/-- Witness for C7: the fallback applied to the spec's example URL. -/
theorem unsupported_fallback_witness :
    getVideoId ("https://example.com/video.mp4") = none :=
  unsupported_fallback.1 ("https://example.com/video.mp4")
    (not_hasYtRef _ (by decide)) (not_hasVimeoRef _ (by decide))
